import Mathlib

/-!
Verification of the MassMatchFinder combinatorial search core
(`mass_match_app.py`): the modifier normalizer (the `list2_raw` parse
loop), the name resolver (`get_global_name`), and the combination
search engine (`within_tolerance` / `add_result` and the five strategy
loops inside "Run Matching Search").

Python floats are embedded as rationals (`ℚ`); `float()` string
parsing is modelled on plain decimal literals (optional sign, digits,
at most one decimal point).  Display-only decimal formatting
(`%.5f` and tuple `repr`) is abstracted by `toString` on `ℚ`: no claim
inspects the exact digits of those display substrings, only the
integer fragment labels, which are rendered exactly.
-/

namespace MassMatch

/-! ## Decimal parsing (`float(...)`) -/

/-- Value of a single decimal digit character. -/
def digitVal (c : Char) : ℕ := c.toNat - 48

/-- Value of a string of decimal digits, most significant first. -/
def digitsToNat (cs : List Char) : ℕ :=
  cs.foldl (fun acc c => acc * 10 + digitVal c) 0

/-- Python `float()` on an unsigned decimal literal: digits with at
most one decimal point and at least one digit overall (`"2.5"`, `"3"`,
`".5"`, `"5."`); anything else fails. -/
def parseUnsignedL (cs : List Char) : Option ℚ :=
  let intPart := cs.takeWhile Char.isDigit
  let rest := cs.dropWhile Char.isDigit
  match rest with
  | [] => if intPart.isEmpty then none else some (mkRat (digitsToNat intPart) 1)
  | c :: frac =>
    if c = '.' then
      if frac.all Char.isDigit then
        if intPart.isEmpty && frac.isEmpty then none
        else some (mkRat (digitsToNat intPart * 10 ^ frac.length + digitsToNat frac)
                         (10 ^ frac.length))
      else none
    else none

/-- Python `float()` on a decimal literal with an optional leading sign. -/
def parseFloatL (cs : List Char) : Option ℚ :=
  match cs with
  | '+' :: rest => parseUnsignedL rest
  | '-' :: rest => (parseUnsignedL rest).map (fun v => -v)
  | _ => parseUnsignedL cs

/-! ## Modifier normalizer (the `for item in list2_raw` parse loop) -/

/-- Drop characters satisfying `p` from both ends of a character list
(Python `str.strip`). -/
def stripBoth (p : Char → Bool) (cs : List Char) : List Char :=
  ((cs.dropWhile p).reverse.dropWhile p).reverse

/-- The entry cleanup chain of the parse loop: strip whitespace, then
single-quote characters, then double-quote characters from both ends
(34 and 39 are the code points of the two quote characters). -/
def stripNoise (cs : List Char) : List Char :=
  stripBoth (fun c => c == Char.ofNat 34)
    (stripBoth (fun c => c == Char.ofNat 39)
      (stripBoth Char.isWhitespace cs))

/-- One iteration of the modifier parse loop; the accumulator is the
pair `(list2_add, list2_sub)`.  `s.head? = some c` models
`s.startswith(c)` and `s.tail` models `s[1:]`; a `none` parse is the
`except ValueError: pass` branch. -/
def normStepL (acc : List ℚ × List ℚ) (item : List Char) : List ℚ × List ℚ :=
  let s := stripNoise item
  if s.head? = some '+' then
    match parseFloatL s.tail with
    | some v => (acc.1 ++ [v], acc.2)
    | none => acc
  else if s.head? = some '-' then
    match parseFloatL s with
    | some v => (acc.1, acc.2 ++ [|v|])
    | none => acc
  else
    match parseFloatL s with
    | some v =>
      if 0 ≤ v then (acc.1 ++ [v], acc.2 ++ [v])
      else (acc.1, acc.2 ++ [|v|])
    | none => acc

/-- The whole modifier parse loop: `list2_raw → (list2_add, list2_sub)`. -/
def normalize (entries : List String) : List ℚ × List ℚ :=
  entries.foldl (fun acc e => normStepL acc e.data) ([], [])

/-- Whether an entry survives the `float(...)` call of its branch; the
`except ValueError: pass` of the parse loop fires exactly when this is
`false`. -/
def entryParses (item : List Char) : Bool :=
  let s := stripNoise item
  if s.head? = some '+' then (parseFloatL s.tail).isSome
  else (parseFloatL s).isSome

/-! ## Name resolver (`get_global_name`) -/

/-- Order-preserving deduplication (the `seen` set loop at the end of
`get_global_name`). -/
def dedupe (l : List String) : List String :=
  l.foldl (fun acc m => if m ∈ acc then acc else acc ++ [m]) []

/-- `get_global_name(num)` over an explicit name map and tolerance:
for each `(k, v)` pair, `k_str = str(k).strip()` is parsed as a float
(`continue` on failure); a key with an explicit sign matches when
`abs(k_val - num) <= tol`, appending `v` verbatim; an unsigned key
matches by magnitude, appending `v` prefixed with the sign of `num`.
Matches are deduplicated preserving order. -/
def get_global_name (tolerance : ℚ) (nameMap : List (String × String)) (num : ℚ) :
    List String :=
  let matchList := nameMap.foldl (fun (acc : List String) kv =>
    let k_str := stripBoth Char.isWhitespace kv.1.data
    match parseFloatL k_str with
    | none => acc
    | some k_val =>
      if k_str.head? = some '+' ∨ k_str.head? = some '-' then
        if |k_val - num| ≤ tolerance then acc ++ [kv.2] else acc
      else
        if abs (abs k_val - abs num) ≤ tolerance then
          acc ++ [(if num < 0 then "-" else "+") ++ kv.2]
        else acc) []
  dedupe matchList

/-! ## Combination search engine -/

/-- The five strategy checkboxes of the Combination Settings panel. -/
structure Strategies where
  run_main_only : Bool
  run_additions : Bool
  run_subtractions : Bool
  run_sub_add : Bool
  run_list2_only : Bool

/-- One candidate combination: the description passed to `add_result`,
the computed value, and the `steps` list whose length becomes the
step count of the record. -/
structure Candidate where
  desc : String
  val : ℚ
  steps : List ℚ
deriving DecidableEq

/-- One result tuple `(len(steps), err, full_desc, val, err)` as
appended by `add_result` (the error is stored twice). -/
structure ResultRecord where
  stepCount : ℕ
  err : ℚ
  desc : String
  val : ℚ
  err2 : ℚ
deriving DecidableEq

/-- `within_tolerance(value, target_mass)`:
`abs(value - target_mass) <= tolerance`. -/
def within_tolerance (tolerance value target_mass : ℚ) : Bool :=
  decide (|value - target_mass| ≤ tolerance)

/-- `full_desc = desc if not prefix else f"[{prefix}] {desc}"`. -/
def full_desc (pfx : Option String) (desc : String) : String :=
  match pfx with
  | none => desc
  | some p => "[" ++ p ++ "] " ++ desc

/-- `add_result`: append the result tuple when the value is within
tolerance of the target, otherwise leave the list unchanged. -/
def add_result (tolerance : ℚ) (desc : String) (val : ℚ) (steps : List ℚ)
    (results : List ResultRecord) (target_mass : ℚ) (pfx : Option String) :
    List ResultRecord :=
  if within_tolerance tolerance val target_mass then
    results ++ [⟨steps.length, |val - target_mass|, full_desc pfx desc, val,
                 |val - target_mass|⟩]
  else results

/-- The record `add_result` appends for a candidate that passed the
tolerance test. -/
def recOf (target : ℚ) (pfx : Option String) (c : Candidate) : ResultRecord :=
  ⟨c.steps.length, |c.val - target|, full_desc pfx c.desc, c.val, |c.val - target|⟩

/-- Run all candidates of one target through `add_result`, accumulating
into `results` (the shared `results` list of the search loop). -/
def runTarget (tolerance target : ℚ) (pfx : Option String)
    (cands : List Candidate) (results : List ResultRecord) : List ResultRecord :=
  cands.foldl (fun res c => add_result tolerance c.desc c.val c.steps res target pfx)
    results

/-- The full search: one sub-run per `(target_mass, prefix)` pair, all
accumulating into one shared result list. -/
def runSearch (tolerance : ℚ) (targets : List (ℚ × Option String))
    (cands : List Candidate) : List ResultRecord :=
  targets.foldl (fun res tp => runTarget tolerance tp.1 tp.2 cands res) []

/-- Display rendering of a float operand (abstraction of Python float
`repr` / `%.5f`; injective on `ℚ` like `repr` is on distinct floats). -/
def pyRepr (q : ℚ) : String := toString q

/-- Python `repr` of a tuple of floats: `(x,)` or `(x, y, ...)`. -/
def tupleRepr (l : List ℚ) : String :=
  match l with
  | [x] => "(" ++ pyRepr x ++ ",)"
  | _ => "(" ++ String.intercalate ", " (l.map pyRepr) ++ ")"

/-- Display rendering of `f"{m:+.5f}"`: always an explicit sign. -/
def fmtSigned (q : ℚ) : String :=
  if 0 ≤ q then "+" ++ pyRepr q else pyRepr q

/-- `itertools.combinations_with_replacement` over a list, in the same
order. -/
def cwr (l : List ℚ) : ℕ → List (List ℚ)
  | 0 => [[]]
  | r + 1 =>
    match l with
    | [] => []
    | x :: xs => (cwr (x :: xs) r).map (fun combo => x :: combo) ++ cwr xs (r + 1)

/-- `itertools.combinations` over a list (positional, no value
deduplication), in the same order. -/
def comb (l : List ℚ) : ℕ → List (List ℚ)
  | 0 => [[]]
  | r + 1 =>
    match l with
    | [] => []
    | x :: xs => (comb xs r).map (fun combo => x :: combo) ++ comb xs (r + 1)

/-- Candidates of the `run_additions` loop: for `r in range(1, 4)`,
every combination with replacement of `list2_add`, value
`total_main + sum(combo)`. -/
def additionsCands (total : ℚ) (list2_add : List ℚ) : List Candidate :=
  (List.range' 1 3).flatMap fun r =>
    (cwr list2_add r).map fun combo =>
      ⟨"+" ++ tupleRepr combo, total + combo.sum, combo⟩

/-- Candidates of the `run_subtractions` loop: for `r in range(1, 4)`,
every combination (without replacement) of `list2_sub`, value
`total_main - sum(combo)`. -/
def subtractionsCands (total : ℚ) (list2_sub : List ℚ) : List Candidate :=
  (List.range' 1 3).flatMap fun r =>
    (comb list2_sub r).map fun combo =>
      ⟨"-" ++ tupleRepr combo, total - combo.sum, combo⟩

/-- Candidates of the `run_sub_add` loop: every `(sub, add)` pair with
`sub == add` skipped by `continue`, value `total_main - sub + add`,
steps `[sub, add]`. -/
def subAddCands (total : ℚ) (list2_sub list2_add : List ℚ) : List Candidate :=
  list2_sub.flatMap fun sub =>
    list2_add.flatMap fun add =>
      if sub = add then []
      else [⟨"-(" ++ pyRepr sub ++ ",) +(" ++ pyRepr add ++ ",)",
             total - sub + add, [sub, add]⟩]

/-! ### Fragment strategy (`run_list2_only`, "Shorters-combos") -/

/-- Python `round` to an integer: round half to even. -/
def roundHalfEven (x : ℚ) : ℤ :=
  let f := ⌊x⌋
  let r := x - f
  if r < mkRat 1 2 then f
  else if mkRat 1 2 < r then f + 1
  else if f % 2 = 0 then f else f + 1

/-- Python `round(x, 6)`. -/
def round6 (x : ℚ) : ℚ := mkRat (roundHalfEven (x * 1000000)) 1000000

/-- One step of the `signed_mods` construction: skip when the rounded
magnitude collides with a base-list mass, deduplicate by
`(sign, rounded magnitude)` pair, first occurrence wins; the state is
`(seen, signed_mods)` and the appended value is `+v` or `-v`. -/
def signedModsStep (mset : List ℚ) (sgn : Bool)
    (st : List (Bool × ℚ) × List ℚ) (v : ℚ) : List (Bool × ℚ) × List ℚ :=
  let mag := round6 |v|
  if mag ∈ mset then st
  else if (sgn, mag) ∈ st.1 then st
  else (st.1 ++ [(sgn, mag)], st.2 ++ [if sgn then v else -v])

/-- The deduplicated signed modifier list: positive shifts from
`list2_add` first, then negative shifts from `list2_sub`;
`main_masses_set` holds the 6-decimal-rounded base masses. -/
def signedMods (main_list list2_add list2_sub : List ℚ) : List ℚ :=
  let mset := main_list.map (fun x => round6 x)
  let st1 := list2_add.foldl (signedModsStep mset true) ([], [])
  let st2 := list2_sub.foldl (signedModsStep mset false) st1
  st2.2

/-- Running prefix sums: `prefix_sums = [0.0]` then
`prefix_sums.append(prefix_sums[-1] + x)` for each base value. -/
def prefixSumsAux (cur : ℚ) : List ℚ → List ℚ
  | [] => []
  | x :: xs => (cur + x) :: prefixSumsAux (cur + x) xs

/-- The `prefix_sums` array of the fragment loop. -/
def prefix_sums (main_list : List ℚ) : List ℚ :=
  0 :: prefixSumsAux 0 main_list

/-- `frag_label = f"{start + 1}-{end}"`. -/
def fragLabel (start e : ℕ) : String :=
  toString (start + 1) ++ "-" ++ toString e

/-- The `(frag_label, frag_sum)` pairs enumerated by the fragment
loop headers (`for start in range(n)`, `for end in range(start+1, n+1)`,
`frag_sum = prefix_sums[end] - prefix_sums[start]`). -/
def fragItems (main_list : List ℚ) : List (String × ℚ) :=
  let n := main_list.length
  let ps := prefix_sums main_list
  (List.range n).flatMap fun start =>
    (List.range' (start + 1) (n - start)).map fun e =>
      (fragLabel start e, ps.getD e 0 - ps.getD start 0)

/-- `for i_m, m1 in enumerate(signed_mods): for m2 in signed_mods[i_m:]`:
unordered pairs with repetition, `i ≤ j` over positions. -/
def pairsUpper : List ℚ → List (ℚ × ℚ)
  | [] => []
  | x :: xs => (x :: xs).map (fun y => (x, y)) ++ pairsUpper xs

/-- Candidates of the fragment strategy, in loop order: for each
contiguous fragment, the fragment alone, fragment plus one signed
modifier, fragment plus each `i ≤ j` pair of signed modifiers, then for
each in-fragment position and each neighbour whose mass differs by at
least `1e-9`, the single substitution alone, plus one modifier, plus
each pair of modifiers. -/
def fragCands (main_list list2_add list2_sub : List ℚ) : List Candidate :=
  let n := main_list.length
  let signed_mods := signedMods main_list list2_add list2_sub
  let ps := prefix_sums main_list
  (List.range n).flatMap fun start =>
    (List.range' (start + 1) (n - start)).flatMap fun e =>
      let frag_sum := ps.getD e 0 - ps.getD start 0
      let frag_label := fragLabel start e
      [⟨"frag " ++ frag_label, frag_sum, []⟩]
      ++ (signed_mods.map fun m =>
            ⟨"frag " ++ frag_label ++ " " ++ fmtSigned m, frag_sum + m, [m]⟩)
      ++ ((pairsUpper signed_mods).map fun p =>
            ⟨"frag " ++ frag_label ++ " " ++ fmtSigned p.1 ++ " " ++ fmtSigned p.2,
             frag_sum + (p.1 + p.2), [p.1, p.2]⟩)
      ++ ((List.range' start (e - start)).flatMap fun k =>
            let old_mass := main_list.getD k 0
            let pos_in_frag := k - start + 1
            let neighbours :=
              (if 1 ≤ k then [k - 1] else []) ++ (if k + 1 < n then [k + 1] else [])
            neighbours.flatMap fun neigh =>
              let subst_mass := main_list.getD neigh 0
              if |subst_mass - old_mass| < mkRat 1 1000000000 then []
              else
                let sub_base := frag_sum - old_mass + subst_mass
                let base_desc := "frag " ++ frag_label ++ " subst pos"
                  ++ toString pos_in_frag ++ " " ++ pyRepr old_mass ++ "->"
                  ++ pyRepr subst_mass
                [⟨base_desc, sub_base, [sub_base - frag_sum]⟩]
                ++ (signed_mods.map fun m =>
                      ⟨base_desc ++ " " ++ fmtSigned m, sub_base + m,
                       [sub_base - frag_sum, m]⟩)
                ++ ((pairsUpper signed_mods).map fun p =>
                      ⟨base_desc ++ " " ++ fmtSigned p.1 ++ " " ++ fmtSigned p.2,
                       sub_base + (p.1 + p.2), [sub_base - frag_sum, p.1, p.2]⟩))

/-- All candidates evaluated for one target, in source order:
main-only, additions, subtractions, sub-and-add, fragments; each block
present exactly when its strategy checkbox is enabled.  `total_main`
is `sum(main_list)`. -/
def candidates (selected_name : String) (main_list list2_add list2_sub : List ℚ)
    (st : Strategies) : List Candidate :=
  let total_main := main_list.sum
  (if st.run_main_only then [⟨selected_name ++ " only", total_main, []⟩] else [])
  ++ (if st.run_additions then additionsCands total_main list2_add else [])
  ++ (if st.run_subtractions then subtractionsCands total_main list2_sub else [])
  ++ (if st.run_sub_add then subAddCands total_main list2_sub list2_add else [])
  ++ (if st.run_list2_only then fragCands main_list list2_add list2_sub else [])

/-! ## Helper lemmas about the engine -/

theorem within_tolerance_iff {tol value target : ℚ} :
    within_tolerance tol value target = true ↔ |value - target| ≤ tol := by
  simp [within_tolerance]

theorem runTarget_cons {tol target : ℚ} {pfx : Option String} {c : Candidate}
    {cs : List Candidate} {res : List ResultRecord} :
    runTarget tol target pfx (c :: cs) res =
      runTarget tol target pfx cs (add_result tol c.desc c.val c.steps res target pfx) :=
  rfl

/-- Membership in the output of one sub-run: a record either was already
in the accumulator or is the record of an in-tolerance candidate. -/
theorem mem_runTarget_iff {tol target : ℚ} {pfx : Option String}
    {cands : List Candidate} {res : List ResultRecord} {r : ResultRecord} :
    r ∈ runTarget tol target pfx cands res ↔
      r ∈ res ∨ ∃ c ∈ cands, within_tolerance tol c.val target = true ∧
        r = recOf target pfx c := by
  induction cands generalizing res with
  | nil => simp [runTarget]
  | cons c cs ih =>
    rw [runTarget_cons, ih]
    by_cases h : within_tolerance tol c.val target
    · simp only [add_result, h, if_true, recOf, List.mem_append, List.mem_singleton,
        List.mem_cons]
      constructor
      · rintro (((hr | (hr | hnil)) | ⟨c', hc', hw, hr⟩))
        · exact Or.inl hr
        · exact Or.inr ⟨c, Or.inl rfl, h, hr⟩
        · exact absurd hnil (List.not_mem_nil r)
        · exact Or.inr ⟨c', Or.inr hc', hw, hr⟩
      · rintro (hr | ⟨c', (rfl | hc'), hw, hr⟩)
        · exact Or.inl (Or.inl hr)
        · exact Or.inl (Or.inr (Or.inl hr))
        · exact Or.inr ⟨c', hc', hw, hr⟩
    · simp only [add_result, h, if_false, recOf, List.mem_cons]
      constructor
      · rintro (hr | ⟨c', hc', hw, hr⟩)
        · exact Or.inl hr
        · exact Or.inr ⟨c', Or.inr hc', hw, hr⟩
      · rintro (hr | ⟨c', (rfl | hc'), hw, hr⟩)
        · exact Or.inl hr
        · exact absurd hw h
        · exact Or.inr ⟨c', hc', hw, hr⟩

theorem runSearch_single {tol target : ℚ} {pfx : Option String}
    {cands : List Candidate} :
    runSearch tol [(target, pfx)] cands = runTarget tol target pfx cands [] :=
  rfl

/-! ## C1 -/

/-- C1: every ResultRecord in the search output satisfies
`|computed value - target| <= tolerance`, and both stored error fields
equal `|computed value - target|`; a combination outside tolerance never
produces a record. -/
theorem c1_records_within_tolerance (selected_name : String)
    (main_list list2_add list2_sub : List ℚ) (st : Strategies)
    (tol target : ℚ) (pfx : Option String) (r : ResultRecord)
    (hr : r ∈ runSearch tol [(target, pfx)]
            (candidates selected_name main_list list2_add list2_sub st)) :
    |r.val - target| ≤ tol ∧ r.err = |r.val - target| ∧ r.err2 = |r.val - target| := by
  rw [runSearch_single] at hr
  rcases mem_runTarget_iff.mp hr with h | ⟨c, _, hw, rfl⟩
  · exact absurd h (List.not_mem_nil r)
  · exact ⟨within_tolerance_iff.mp hw, rfl, rfl⟩

/-- C1 witness: the base-only record of a concrete in-tolerance search. -/
theorem c1_records_within_tolerance_witness :
    |((⟨0, 0, "D only", 1, 0⟩ : ResultRecord)).val - 1| ≤ 0 ∧
      ((⟨0, 0, "D only", 1, 0⟩ : ResultRecord)).err = |((⟨0, 0, "D only", 1, 0⟩ : ResultRecord)).val - 1| ∧
      ((⟨0, 0, "D only", 1, 0⟩ : ResultRecord)).err2 = |((⟨0, 0, "D only", 1, 0⟩ : ResultRecord)).val - 1| :=
  c1_records_within_tolerance "D" [1] [] [] ⟨true, false, false, false, false⟩ 0 1
    none ⟨0, 0, "D only", 1, 0⟩ (by with_unfolding_all decide)

/-! ## C9 -/

/-- C9: with BaseOnly alone and target equal to `sum(baseList)`, every
tolerance `>= 0` yields exactly one record, with error 0 and step count 0. -/
theorem c9_base_only_exact (selected_name : String)
    (main_list list2_add list2_sub : List ℚ) (pfx : Option String)
    (tol : ℚ) (h : 0 ≤ tol) :
    runSearch tol [(main_list.sum, pfx)]
        (candidates selected_name main_list list2_add list2_sub
          ⟨true, false, false, false, false⟩) =
      [⟨0, 0, full_desc pfx (selected_name ++ " only"), main_list.sum, 0⟩] := by
  rw [runSearch_single]
  simp [candidates, runTarget, add_result, within_tolerance, h]

/-- C9 witness at a concrete base list and tolerance. -/
theorem c9_base_only_exact_witness :
    runSearch 0 [(List.sum [2], none)]
        (candidates "D" [2] [] [] ⟨true, false, false, false, false⟩) =
      [⟨0, 0, full_desc none ("D" ++ " only"), List.sum [2], 0⟩] :=
  c9_base_only_exact "D" [2] [] [] none 0 (by decide)


/-! ## C5 -/

/-- C5 (amended): an empty base list is not special-cased; the search
proceeds with base total `sum([]) = 0`, so with BaseOnly enabled alone
the result is the single total-0 record exactly when `|0 - target|` is
within tolerance, and empty otherwise — not unconditionally empty. -/
theorem c5_empty_base_runs (selected_name : String)
    (list2_add list2_sub : List ℚ) (tol target : ℚ) (pfx : Option String) :
    runSearch tol [(target, pfx)]
        (candidates selected_name [] list2_add list2_sub
          ⟨true, false, false, false, false⟩) =
      if within_tolerance tol 0 target then
        [⟨0, |0 - target|, full_desc pfx (selected_name ++ " only"), 0, |0 - target|⟩]
      else [] := by
  rw [runSearch_single]
  by_cases h : within_tolerance tol 0 target <;>
    simp [candidates, runTarget, add_result, h]

/-- C5 counterexample: with an empty base list, BaseOnly enabled,
target 0 and tolerance 1/10, the engine produces one record, so the
output is not the empty list the claim requires. -/
theorem c5_counterexample :
    runSearch (mkRat 1 10) [(0, none)]
        (candidates "D" [] [] [] ⟨true, false, false, false, false⟩) =
      [⟨0, 0, "D only", 0, 0⟩] ∧
    runSearch (mkRat 1 10) [(0, none)]
        (candidates "D" [] [] [] ⟨true, false, false, false, false⟩) ≠ [] := by
  with_unfolding_all decide

/-! ## C4 -/

/-- Membership in the sub-and-add candidate list: exactly the pairs
with `sub` from `list2_sub`, `add` from `list2_add` and `sub ≠ add`. -/
theorem mem_subAddCands {total : ℚ} {list2_sub list2_add : List ℚ}
    {c : Candidate} :
    c ∈ subAddCands total list2_sub list2_add ↔
      ∃ sub ∈ list2_sub, ∃ add ∈ list2_add, sub ≠ add ∧
        c = ⟨"-(" ++ pyRepr sub ++ ",) +(" ++ pyRepr add ++ ",)",
             total - sub + add, [sub, add]⟩ := by
  simp only [subAddCands, List.mem_flatMap]
  constructor
  · rintro ⟨sub, hsub, add, hadd, hc⟩
    by_cases h : sub = add
    · rw [if_pos h] at hc
      exact absurd hc (List.not_mem_nil c)
    · rw [if_neg h] at hc
      rcases List.mem_singleton.mp hc with rfl
      exact ⟨sub, hsub, add, hadd, h, rfl⟩
  · rintro ⟨sub, hsub, add, hadd, h, rfl⟩
    exact ⟨sub, hsub, add, hadd, by rw [if_neg h]; exact List.mem_singleton.mpr rfl⟩

/-- C4: in the SubtractAndAdd strategy, every produced record comes from
a pair with `sub ≠ add`, has value `total - sub + add` and step count 2
(soundness); every in-tolerance pair with `sub ≠ add` produces such a
record (completeness); and a self-pair `sub == add` never produces a
record, whatever the target and tolerance. -/
theorem c4_sub_add_skips_self_pairs :
    (∀ (selected_name : String) (main_list list2_add list2_sub : List ℚ)
        (tol target : ℚ) (pfx : Option String) (r : ResultRecord),
      r ∈ runSearch tol [(target, pfx)]
            (candidates selected_name main_list list2_add list2_sub
              ⟨false, false, false, true, false⟩) →
      ∃ sub ∈ list2_sub, ∃ add ∈ list2_add, sub ≠ add ∧
        r.stepCount = 2 ∧ r.val = main_list.sum - sub + add) ∧
    (∀ (selected_name : String) (main_list list2_add list2_sub : List ℚ)
        (tol target : ℚ) (pfx : Option String) (sub add : ℚ),
      sub ∈ list2_sub → add ∈ list2_add → sub ≠ add →
      within_tolerance tol (main_list.sum - sub + add) target = true →
      ∃ r ∈ runSearch tol [(target, pfx)]
            (candidates selected_name main_list list2_add list2_sub
              ⟨false, false, false, true, false⟩),
        r.stepCount = 2 ∧ r.val = main_list.sum - sub + add) ∧
    (∀ (selected_name : String) (main_list : List ℚ) (v : ℚ)
        (tol target : ℚ) (pfx : Option String),
      runSearch tol [(target, pfx)]
          (candidates selected_name main_list [v] [v]
            ⟨false, false, false, true, false⟩) = []) := by
  have hcand : ∀ (selected_name : String) (main_list list2_add list2_sub : List ℚ),
      candidates selected_name main_list list2_add list2_sub
        ⟨false, false, false, true, false⟩ =
      subAddCands main_list.sum list2_sub list2_add := by
    intro n ml la ls
    simp [candidates]
  refine ⟨?_, ?_, ?_⟩
  · intro n ml la ls tol target pfx r hr
    rw [runSearch_single, hcand] at hr
    rcases mem_runTarget_iff.mp hr with h | ⟨c, hc, hw, rfl⟩
    · exact absurd h (List.not_mem_nil r)
    · rcases mem_subAddCands.mp hc with ⟨sub, hsub, add, hadd, hne, rfl⟩
      exact ⟨sub, hsub, add, hadd, hne, rfl, rfl⟩
  · intro n ml la ls tol target pfx sub add hsub hadd hne hw
    rw [runSearch_single, hcand]
    refine ⟨recOf target pfx ⟨"-(" ++ pyRepr sub ++ ",) +(" ++ pyRepr add ++ ",)",
      ml.sum - sub + add, [sub, add]⟩, ?_, rfl, rfl⟩
    exact mem_runTarget_iff.mpr (Or.inr ⟨_, mem_subAddCands.mpr
      ⟨sub, hsub, add, hadd, hne, rfl⟩, hw, rfl⟩)
  · intro n ml v tol target pfx
    rw [runSearch_single, hcand]
    simp [subAddCands, runTarget]

/-- C4 witness: a concrete instantiation of all three parts. -/
theorem c4_sub_add_skips_self_pairs_witness :
    (∃ sub ∈ ([2] : List ℚ), ∃ add ∈ ([3] : List ℚ), sub ≠ add ∧
      (⟨2, 1, "-(2,) +(3,)", 1, 1⟩ : ResultRecord).stepCount = 2 ∧
      (⟨2, 1, "-(2,) +(3,)", 1, 1⟩ : ResultRecord).val = List.sum ([0] : List ℚ) - sub + add) ∧
    (∃ r ∈ runSearch 1 [(0, none)]
        (candidates "D" [0] [3] [2] ⟨false, false, false, true, false⟩),
      r.stepCount = 2 ∧ r.val = List.sum ([0] : List ℚ) - 2 + 3) ∧
    runSearch 1 [(0, none)]
        (candidates "D" [0] [7] [7] ⟨false, false, false, true, false⟩) = [] := by
  refine ⟨?_, ?_, ?_⟩
  · exact c4_sub_add_skips_self_pairs.1 "D" [0] [3] [2] 1 0 none
      ⟨2, 1, "-(2,) +(3,)", 1, 1⟩ (by with_unfolding_all decide)
  · exact c4_sub_add_skips_self_pairs.2.1 "D" [0] [3] [2] 1 0 none 2 3
      (by decide) (by decide) (by decide) (by with_unfolding_all decide)
  · exact c4_sub_add_skips_self_pairs.2.2 "D" [0] 7 1 0 none


/-! ## C10 -/

theorem prefixSumsAux_getD (l : List ℚ) : ∀ (c : ℚ) (i : ℕ), i < l.length →
    (prefixSumsAux c l).getD i 0 = c + (l.take (i + 1)).sum := by
  induction l with
  | nil => intro c i h; simp at h
  | cons x xs ih =>
    intro c i h
    cases i with
    | zero => simp [prefixSumsAux]
    | succ j =>
      have hj : j < xs.length := Nat.lt_of_succ_lt_succ h
      simp only [prefixSumsAux, List.getD_cons_succ, List.take_succ_cons,
        List.sum_cons]
      rw [ih (c + x) j hj]
      ring

theorem prefix_sums_getD (l : List ℚ) (i : ℕ) (h : i ≤ l.length) :
    (prefix_sums l).getD i 0 = (l.take i).sum := by
  cases i with
  | zero => simp [prefix_sums]
  | succ j =>
    have hj : j < l.length := Nat.lt_of_succ_le h
    simp only [prefix_sums, List.getD_cons_succ]
    rw [prefixSumsAux_getD l 0 j hj, zero_add]

/-- C10 (amended): the fragment value computed from the prefix-sum
array as `prefix_sums[end] - prefix_sums[start]` equals the direct sum
of `baseList[start:end]` for every `0 ≤ start < end ≤ n`; for base list
`[10, 20, 30]` the fragments labelled "1-2", "2-3" and "1-3" (the code
labels `[start, end)` as `f"{start+1}-{end}"`, i.e. 1-based inclusive
ranges) have sums 30, 50 and 60, while the sums 10, 20 and 30 belong to
the labels "1-1", "2-2" and "1-2". -/
theorem c10_prefix_sums_fragments :
    (∀ (l : List ℚ) (s e : ℕ), s < e → e ≤ l.length →
      (prefix_sums l).getD e 0 - (prefix_sums l).getD s 0 =
        ((l.drop s).take (e - s)).sum) ∧
    ("1-2", (30 : ℚ)) ∈ fragItems [10, 20, 30] ∧
    ("2-3", (50 : ℚ)) ∈ fragItems [10, 20, 30] ∧
    ("1-3", (60 : ℚ)) ∈ fragItems [10, 20, 30] ∧
    ("1-1", (10 : ℚ)) ∈ fragItems [10, 20, 30] ∧
    ("2-2", (20 : ℚ)) ∈ fragItems [10, 20, 30] := by
  refine ⟨?_, ?_⟩
  · intro l s e hse he
    rw [prefix_sums_getD l e he, prefix_sums_getD l s (le_trans (le_of_lt hse) he)]
    have h : e = s + (e - s) := (Nat.add_sub_cancel' (le_of_lt hse)).symm
    have h2 : (l.take e).sum = (l.take s).sum + ((l.drop s).take (e - s)).sum := by
      conv_lhs => rw [h]
      rw [List.take_add, List.sum_append]
    rw [h2]
    ring
  · with_unfolding_all decide

/-- C10 witness for the universally quantified prefix-sum equality. -/
theorem c10_prefix_sums_fragments_witness :
    (prefix_sums [10, 20, 30]).getD 2 0 - (prefix_sums [10, 20, 30]).getD 1 0 =
      ((([10, 20, 30] : List ℚ).drop 1).take (2 - 1)).sum :=
  c10_prefix_sums_fragments.1 [10, 20, 30] 1 2 (by decide) (by decide)

/-- C10 counterexample: the fragment the code labels "1-2" has sum 30,
not the 10 asserted by the claim (the claim reads the label as a
1-based end-exclusive range). -/
theorem c10_counterexample :
    ("1-2", (30 : ℚ)) ∈ fragItems [10, 20, 30] ∧
    ("1-2", (10 : ℚ)) ∉ fragItems [10, 20, 30] := by
  with_unfolding_all decide


/-! ## Normalizer lemmas -/

theorem normStepL_skip (acc : List ℚ × List ℚ) (item : List Char)
    (h : entryParses item = false) : normStepL acc item = acc := by
  simp only [normStepL, entryParses] at h ⊢
  by_cases h1 : (stripNoise item).head? = some '+'
  · simp only [h1, if_true, reduceCtorEq, ite_true] at h ⊢
    cases hp : parseFloatL (stripNoise item).tail with
    | none => simp [hp]
    | some w => rw [hp] at h; simp at h
  · by_cases h2 : (stripNoise item).head? = some '-'
    · simp only [h1, h2, if_false, if_true] at h ⊢
      cases hp : parseFloatL (stripNoise item) with
      | none => simp [hp]
      | some w => rw [hp] at h; simp at h
    · simp only [h1, h2, if_false] at h ⊢
      cases hp : parseFloatL (stripNoise item) with
      | none => simp [hp]
      | some w => rw [hp] at h; simp at h

theorem normStepL_sub_nonneg (acc : List ℚ × List ℚ) (item : List Char)
    (h : ∀ v ∈ acc.2, 0 ≤ v) : ∀ v ∈ (normStepL acc item).2, 0 ≤ v := by
  simp only [normStepL]
  by_cases h1 : (stripNoise item).head? = some '+'
  · simp only [h1, if_true]
    cases hp : parseFloatL (stripNoise item).tail with
    | none => simpa [hp] using h
    | some w => simpa [hp] using h
  · by_cases h2 : (stripNoise item).head? = some '-'
    · simp only [h1, h2, if_false, if_true]
      cases hp : parseFloatL (stripNoise item) with
      | none => simpa [hp] using h
      | some w =>
        simp only [hp]
        intro v hv
        rcases List.mem_append.mp hv with hv | hv
        · exact h v hv
        · rcases List.mem_singleton.mp hv with rfl
          exact abs_nonneg w
    · simp only [h1, h2, if_false]
      cases hp : parseFloatL (stripNoise item) with
      | none => simpa [hp] using h
      | some w =>
        simp only [hp]
        by_cases hw : 0 ≤ w
        · simp only [hw, if_true]
          intro v hv
          rcases List.mem_append.mp hv with hv | hv
          · exact h v hv
          · rcases List.mem_singleton.mp hv with rfl
            exact hw
        · simp only [hw, if_false]
          intro v hv
          rcases List.mem_append.mp hv with hv | hv
          · exact h v hv
          · rcases List.mem_singleton.mp hv with rfl
            exact abs_nonneg w

/-! ## C2 -/

/-- C2: the normalizer buckets each successfully parsed entry by its
sign marker — a `+` entry appends its parsed remainder to the addition
bucket only, a `-` entry appends the absolute value of the whole token
to the subtraction bucket only, an unsigned entry goes to both buckets
when its value is `>= 0` and its absolute value goes to the subtraction
bucket only when negative; and
`normalize(["+2.5", "-1.0", "3.0"])` gives additions `{2.5, 3.0}` and
subtractions `{1.0, 3.0}`. -/
theorem c2_normalizer_buckets :
    (∀ (acc : List ℚ × List ℚ) (item : List Char) (v : ℚ),
      (stripNoise item).head? = some '+' →
      parseFloatL (stripNoise item).tail = some v →
      normStepL acc item = (acc.1 ++ [v], acc.2)) ∧
    (∀ (acc : List ℚ × List ℚ) (item : List Char) (v : ℚ),
      (stripNoise item).head? = some '-' →
      parseFloatL (stripNoise item) = some v →
      normStepL acc item = (acc.1, acc.2 ++ [|v|])) ∧
    (∀ (acc : List ℚ × List ℚ) (item : List Char) (v : ℚ),
      (stripNoise item).head? ≠ some '+' →
      (stripNoise item).head? ≠ some '-' →
      parseFloatL (stripNoise item) = some v →
      normStepL acc item =
        if 0 ≤ v then (acc.1 ++ [v], acc.2 ++ [v]) else (acc.1, acc.2 ++ [|v|])) ∧
    normalize ["+2.5", "-1.0", "3.0"] = ([mkRat 5 2, 3], [1, 3]) := by
  refine ⟨?_, ?_, ?_, by with_unfolding_all decide⟩
  · intro acc item v h1 hp
    simp [normStepL, h1, hp]
  · intro acc item v h1 hp
    simp [normStepL, h1, hp]
  · intro acc item v h1 h2 hp
    simp [normStepL, h1, h2, hp]

/-- C2 witness: the three parse branches at the example entries of the claim. -/
theorem c2_normalizer_buckets_witness :
    normStepL ([], []) "+2.5".data = (([] : List ℚ) ++ [mkRat 5 2], ([] : List ℚ)) ∧
    normStepL ([], []) "-1.0".data = (([] : List ℚ), ([] : List ℚ) ++ [|(-1 : ℚ)|]) ∧
    normStepL ([], []) "3.0".data =
      (if (0 : ℚ) ≤ 3 then (([] : List ℚ) ++ [(3 : ℚ)], ([] : List ℚ) ++ [(3 : ℚ)])
       else (([] : List ℚ), ([] : List ℚ) ++ [|(3 : ℚ)|])) := by
  refine ⟨?_, ?_, ?_⟩
  · exact c2_normalizer_buckets.1 ([], []) "+2.5".data (mkRat 5 2)
      (by decide) (by decide)
  · exact c2_normalizer_buckets.2.1 ([], []) "-1.0".data (-1)
      (by decide) (by with_unfolding_all decide)
  · exact c2_normalizer_buckets.2.2.1 ([], []) "3.0".data 3
      (by decide) (by decide) (by decide)

/-! ## C6 -/

/-- C6 (amended): every value the normalizer places in the subtraction
bucket is non-negative; the addition bucket is not so protected, since
a `+`-prefixed entry appends its parsed remainder, which can be
negative (e.g. `"+-3"`). -/
theorem c6_subtraction_values_nonneg (entries : List String) (v : ℚ)
    (hv : v ∈ (normalize entries).2) : 0 ≤ v := by
  revert v
  suffices h : ∀ (acc : List ℚ × List ℚ), (∀ v ∈ acc.2, 0 ≤ v) →
      ∀ v ∈ (entries.foldl (fun acc e => normStepL acc e.data) acc).2, 0 ≤ v by
    intro v hv
    exact h ([], []) (by simp) v hv
  induction entries with
  | nil => intro acc hacc; simpa using hacc
  | cons e es ih =>
    intro acc hacc
    exact ih _ (normStepL_sub_nonneg _ _ hacc)

/-- C6 witness: the subtraction value produced by `"-1.0"` is
non-negative. -/
theorem c6_subtraction_values_nonneg_witness : (0 : ℚ) ≤ 1 :=
  c6_subtraction_values_nonneg ["-1.0"] 1 (by with_unfolding_all decide)

/-- C6 counterexample: the entry `"+-3"` parses (the code calls
`float(s[1:])` with `s[1:] = "-3"`) and appends `-3` to the addition
bucket, so not every AdditionValues entry is non-negative. -/
theorem c6_counterexample :
    normalize ["+-3"] = ([-3], []) ∧
    (-3 : ℚ) ∈ (normalize ["+-3"]).1 ∧ (-3 : ℚ) < 0 := by
  with_unfolding_all decide

/-! ## C8 -/

/-- C8: the normalizer is total by construction; an entry whose
`float(...)` call fails leaves the accumulator unchanged and every
remaining entry is still processed, so
`normalize(["abc", "+1.5"])` gives additions `{1.5}` and subtractions
`{}`. -/
theorem c8_normalizer_total :
    (∀ (acc : List ℚ × List ℚ) (item : List Char),
      entryParses item = false → normStepL acc item = acc) ∧
    (∀ (pre post : List String) (e : String), entryParses e.data = false →
      normalize (pre ++ e :: post) = normalize (pre ++ post)) ∧
    normalize ["abc", "+1.5"] = ([mkRat 3 2], []) := by
  refine ⟨normStepL_skip, ?_, by with_unfolding_all decide⟩
  intro pre post e he
  unfold normalize
  rw [List.foldl_append, List.foldl_append, List.foldl_cons,
    normStepL_skip _ _ he]

/-- C8 witness: skipping the unparseable entry `"abc"`. -/
theorem c8_normalizer_total_witness :
    normStepL ([], [2]) "abc".data = (([] : List ℚ), ([2] : List ℚ)) ∧
    normalize ["abc", "+1.5"] = normalize ["+1.5"] := by
  refine ⟨?_, ?_⟩
  · exact c8_normalizer_total.1 ([], [2]) "abc".data (by decide)
  · exact c8_normalizer_total.2.1 [] ["+1.5"] "abc" (by decide)


/-! ## C3 -/

/-- C3 (amended): a signed name-map key (`+x` or `-x`) resolves to its
name exactly when `|signed key value - value| <= tolerance`; same-sign
matching is guaranteed only when the tolerance is smaller than the key
magnitude, not in general.  The concrete instances of the claim hold:
with `{"-1.007": "Hydrogen loss"}` and tolerance `0.01`, `-1.006`
resolves to `["Hydrogen loss"]` and `1.006` to `[]`. -/
theorem c3_signed_key_matching :
    (∀ (tol num k_val : ℚ) (k nm : String),
      ((stripBoth Char.isWhitespace k.data).head? = some '+' ∨
        (stripBoth Char.isWhitespace k.data).head? = some '-') →
      parseFloatL (stripBoth Char.isWhitespace k.data) = some k_val →
      get_global_name tol [(k, nm)] num =
        if |k_val - num| ≤ tol then [nm] else []) ∧
    get_global_name (mkRat 1 100) [("-1.007", "Hydrogen loss")]
        (mkRat (-1006) 1000) = ["Hydrogen loss"] ∧
    get_global_name (mkRat 1 100) [("-1.007", "Hydrogen loss")]
        (mkRat 1006 1000) = [] := by
  refine ⟨?_, by with_unfolding_all decide, by with_unfolding_all decide⟩
  intro tol num k_val k nm hsign hp
  simp only [get_global_name, List.foldl_cons, List.foldl_nil, hp, if_pos hsign]
  by_cases h : |k_val - num| ≤ tol
  · simp [h, dedupe]
  · simp [h, dedupe]

/-- C3 witness: a signed key resolving at a concrete in-tolerance value. -/
theorem c3_signed_key_matching_witness :
    get_global_name 1 [("+2", "Y")] 2 = if |(2 : ℚ) - 2| ≤ 1 then ["Y"] else [] :=
  c3_signed_key_matching.1 1 2 2 "+2" "Y" (Or.inl (by decide)) (by decide)

set_option maxRecDepth 4000 in
/-- C3 counterexample: the signed key `"-0.001"` (negative) with
tolerance `0.01` matches the positive value `0.005`, because the code
tests only `abs(k_val - num) <= tol`; so the claim that a signed key
never matches a value of the opposite sign is false. -/
theorem c3_counterexample :
    parseFloatL (stripBoth Char.isWhitespace ("-0.001" : String).data) =
      some (mkRat (-1) 1000) ∧
    mkRat (-1) 1000 < 0 ∧ (0 : ℚ) < mkRat 5 1000 ∧
    get_global_name (mkRat 1 100) [("-0.001", "X")] (mkRat 5 1000) = ["X"] := by
  with_unfolding_all decide

/-! ## C7 -/

/-- C7: an unsigned name-map key `x` resolves exactly when
`|abs(x) - abs(value)| <= tolerance`, and the resolved name is the
stored name prefixed with `+` for `value >= 0` and `-` for
`value < 0`; with `{"1.008": "Hydrogen"}` and tolerance `0.01`,
`-1.007` resolves to `["-Hydrogen"]` and `1.009` to `["+Hydrogen"]`. -/
theorem c7_unsigned_key_matching :
    (∀ (tol num k_val : ℚ) (k nm : String),
      ¬((stripBoth Char.isWhitespace k.data).head? = some '+' ∨
        (stripBoth Char.isWhitespace k.data).head? = some '-') →
      parseFloatL (stripBoth Char.isWhitespace k.data) = some k_val →
      get_global_name tol [(k, nm)] num =
        if abs (abs k_val - abs num) ≤ tol then
          [(if num < 0 then "-" else "+") ++ nm]
        else []) ∧
    get_global_name (mkRat 1 100) [("1.008", "Hydrogen")]
        (mkRat (-1007) 1000) = ["-Hydrogen"] ∧
    get_global_name (mkRat 1 100) [("1.008", "Hydrogen")]
        (mkRat 1009 1000) = ["+Hydrogen"] := by
  refine ⟨?_, by with_unfolding_all decide, by with_unfolding_all decide⟩
  intro tol num k_val k nm hsign hp
  simp only [get_global_name, List.foldl_cons, List.foldl_nil, hp, if_neg hsign]
  by_cases h : abs (abs k_val - abs num) ≤ tol
  · simp [h, dedupe]
  · simp [h, dedupe]

/-- C7 witness: an unsigned key resolving at a concrete value. -/
theorem c7_unsigned_key_matching_witness :
    get_global_name (mkRat 1 100) [("1.008", "Hydrogen")] (mkRat (-1007) 1000) =
      if abs (abs (mkRat 1008 1000) - abs (mkRat (-1007) 1000)) ≤ mkRat 1 100 then
        [(if mkRat (-1007) 1000 < 0 then "-" else "+") ++ "Hydrogen"]
      else [] :=
  c7_unsigned_key_matching.1 (mkRat 1 100) (mkRat (-1007) 1000) (mkRat 1008 1000)
    "1.008" "Hydrogen" (by decide) (by decide)

end MassMatch
